import Mathlib

/-!
# Verification of the M/M/s discrete-event simulation (pydesrap_mms)

The repository ships the simulation core as a local package (`simulation/`:
`Param`, `Model`, `MonitoredResource`, `SimLogger`, plus `replications.py`),
which is exercised from the notebooks under `notebooks/`.  The package code
itself is not present in the source snapshot, only its callers, the
CHANGELOG and the recorded notebook outputs.  Following the spec (which
declares the statistical sampling primitives to be a provided capability:
"given a mean and a seed, produce a reproducible stream of non-negative
reals"), the missing parts are modelled here from the spec's words, with
simulated time and all statistics carried exactly as rationals.

The recorded replication in `notebooks/logs.ipynb` (a run of
`Model(Param(warm_up_period=30, data_collection_period=50,
number_of_nurses=1), run_number=0)`) is transcribed verbatim below and is
used as ground truth where its output decides a claim.
-/

namespace DesRap

/-- Immutable configuration for one scenario.  Modelled from the spec:
`simulation/param.py` is absent from the snapshot; field names follow the
`Param` attribute dump printed in `notebooks/logs.ipynb`. -/
structure Param where
  patient_inter : ℚ
  mean_n_consult_time : ℚ
  number_of_nurses : ℕ
  warm_up_period : ℚ
  data_collection_period : ℚ
  audit_interval : ℚ
  number_of_runs : ℕ
  cores : ℕ
deriving DecidableEq, Repr

/-- Total simulated run length of one replication: warm-up plus data
collection. -/
def run_length (p : Param) : ℚ :=
  p.warm_up_period + p.data_collection_period

/-- Raw (unvalidated) constructor inputs.  A distribution mean is carried as
`Option ℚ`: `none` models a NaN input, which has no rational representative. -/
structure RawParam where
  patient_inter : Option ℚ
  mean_n_consult_time : Option ℚ
  number_of_nurses : ℕ
  warm_up_period : ℚ
  data_collection_period : ℚ
  audit_interval : ℚ
  number_of_runs : ℕ
  cores : ℕ
deriving DecidableEq, Repr

/-- Error taxonomy for invalid configuration, from the spec's error-handling
design: invalid distribution mean, non-positive duration, zero servers,
invalid core count. -/
inductive ConfigurationError
  | invalidMean
  | invalidDuration
  | invalidServers
  | invalidCores
deriving DecidableEq, Repr

/-- Validity of raw inputs, written from the spec's words: all durations
positive, distribution means finite and positive, at least one server, a
positive core count not exceeding the available logical cores. -/
def validConfig (raw : RawParam) (available_cores : ℕ) : Bool :=
  (match raw.patient_inter with | some v => decide (0 < v) | none => false) &&
  (match raw.mean_n_consult_time with | some v => decide (0 < v) | none => false) &&
  decide (0 < raw.warm_up_period) &&
  decide (0 < raw.data_collection_period) &&
  decide (0 < raw.audit_interval) &&
  decide (0 < raw.number_of_nurses) &&
  decide (0 < raw.cores) &&
  decide (raw.cores ≤ available_cores)

/-- Modelled from the spec: `Param`/`Model`/`Runner` construction validates
the configuration and raises `ConfigurationError` before any simulated time
advances; a valid configuration is passed through verbatim (never clamped). -/
def mkParam (raw : RawParam) (available_cores : ℕ) :
    Except ConfigurationError Param :=
  match raw.patient_inter, raw.mean_n_consult_time with
  | some pi, some mc =>
      if pi ≤ 0 ∨ mc ≤ 0 then .error .invalidMean
      else if raw.warm_up_period ≤ 0 ∨ raw.data_collection_period ≤ 0 ∨
          raw.audit_interval ≤ 0 then .error .invalidDuration
      else if raw.number_of_nurses = 0 then .error .invalidServers
      else if raw.cores = 0 ∨ available_cores < raw.cores then .error .invalidCores
      else .ok ⟨pi, mc, raw.number_of_nurses, raw.warm_up_period,
        raw.data_collection_period, raw.audit_interval,
        raw.number_of_runs, raw.cores⟩
  | _, _ => .error .invalidMean

/-- Whether an `Except` computation succeeded. -/
def exceptOk {ε α : Type} : Except ε α → Bool
  | .ok _ => true
  | .error _ => false

/-- Phase of the replication a patient arrived in: warm-up or data
collection. -/
inductive Phase
  | wu
  | dc
deriving DecidableEq, Repr

/-- One patient's raw record as produced by the service process.
`start_time`, `q_time_nurse` and `time_with_nurse` are `none` (the model of
a NaN field) until service begins; the notebook output shows they are all
filled in at the moment service starts. -/
structure PRec where
  arrival_time : ℚ
  start_time : Option ℚ
  q_time_nurse : Option ℚ
  time_with_nurse : Option ℚ
deriving DecidableEq, Repr

/-- One patient in the replication's output, after identifier assignment.
The logged trace in `notebooks/logs.ipynb` numbers warm-up and
data-collection patients as separate sequences, each starting at 1. -/
structure Patient where
  patient_id : ℕ
  phase : Phase
  arrival_time : ℚ
  start_time : Option ℚ
  q_time_nurse : Option ℚ
  time_with_nurse : Option ℚ
deriving DecidableEq, Repr

/-- One row of `Model.results_list`, with the field names of the dicts
displayed in `notebooks/logs.ipynb`. -/
structure ResultRec where
  patient_id : ℕ
  arrival_time : ℚ
  q_time_nurse : Option ℚ
  time_with_nurse : Option ℚ
deriving DecidableEq, Repr

/-- Projection of a patient to its `results_list` row. -/
def Patient.toResult (q : Patient) : ResultRec :=
  ⟨q.patient_id, q.arrival_time, q.q_time_nurse, q.time_with_nurse⟩

/-- A snapshot appended by the interval auditor: simulated time, queue
length and time-weighted utilisation of the monitored resource. -/
structure AuditRecord where
  simulation_time : ℚ
  queue_length : ℕ
  utilisation : ℚ
deriving DecidableEq, Repr

/-- Scalar KPIs of one replication; `none` is the explicit "no data"
marker the spec requires for a replication with zero arrivals during data
collection. -/
structure Kpis where
  mean_q_time_nurse : Option ℚ
  mean_utilisation : Option ℚ
  mean_queue_length : Option ℚ
deriving DecidableEq, Repr

/-- One replication's output, owned by the Runner once complete. -/
structure RepResult where
  patients : List Patient
  results_list : List ResultRec
  audit_list : List AuditRecord
  kpis : Kpis
deriving DecidableEq, Repr

/-- Bookkeeping for one of the `s` identical servers of the monitored
resource: the time it next becomes free, and the log of busy periods
(service start, service end), most recent first.  Modelled from the spec:
the MonitoredResource accumulates busy-server-time on each acquire/release
transition; the per-server period log is the explicit form of that
accounting. -/
structure Server where
  free_at : ℚ
  busy_periods : List (ℚ × ℚ)
deriving DecidableEq, Repr

/-- State threaded through the arrival fold: the server pool, the patient
records produced so far (most recent first), and the index of the next
consultation-time draw. -/
structure SimState where
  servers : List Server
  recs : List PRec
  draw_index : ℕ
deriving DecidableEq, Repr

/-- Initial state of a replication: every server free at time 0, no
patients, no draws consumed. -/
def init_state (p : Param) : SimState :=
  ⟨List.replicate p.number_of_nurses ⟨0, []⟩, [], 0⟩

/-- Split a server list as `pre ++ srv :: post` where `srv` is the first
server with the minimal `free_at`; `none` only for the empty pool. -/
def splitMin : List Server → Option (List Server × Server × List Server)
  | [] => none
  | x :: xs =>
      match splitMin xs with
      | none => some ([], x, [])
      | some (pre, m, post) =>
          if x.free_at ≤ m.free_at then some ([], x, xs)
          else some (x :: pre, m, post)

/-- Modelled from the spec: the service process for one arrival at time `a`.
The patient acquires the FIFO resource as soon as a server frees
(`start = max a (earliest free time)`); at service start the wait and the
sampled consultation length are recorded and the server is held for that
long.  An event at or after the end of the run is never processed, so a
patient whose service would start then keeps NaN (`none`) fields. -/
def serveOne (runEnd : ℚ) (consult : ℕ → ℚ) (st : SimState) (a : ℚ) : SimState :=
  match splitMin st.servers with
  | none => ⟨st.servers, ⟨a, none, none, none⟩ :: st.recs, st.draw_index⟩
  | some (pre, m, post) =>
      let start := max a m.free_at
      if start < runEnd then
        let d := consult st.draw_index
        ⟨pre ++ ⟨start + d, (start, start + d) :: m.busy_periods⟩ :: post,
          ⟨a, some start, some (start - a), some d⟩ :: st.recs,
          st.draw_index + 1⟩
      else ⟨st.servers, ⟨a, none, none, none⟩ :: st.recs, st.draw_index⟩

/-- Modelled from the spec: the arrival generator repeatedly draws an
inter-arrival duration, advances the clock, and creates a patient; the
first arrival is one inter-arrival time after 0 (the CHANGELOG records the
fix "First arrival no longer at time 0") and no arrival event at or past
the end of the run is processed. -/
def generate_patient_arrivals (runEnd : ℚ) : ℚ → List ℚ → List ℚ
  | _, [] => []
  | t, d :: rest =>
      let t2 := t + d
      if t2 < runEnd then t2 :: generate_patient_arrivals runEnd t2 rest
      else []

/-- Arrival times of one replication, from the inter-arrival draws. -/
def sim_arrivals (p : Param) (iats : List ℚ) : List ℚ :=
  generate_patient_arrivals (run_length p) 0 iats

/-- Final simulation state of one replication: the arrival fold over the
service process. -/
def sim_state (p : Param) (iats : List ℚ) (consult : ℕ → ℚ) : SimState :=
  (sim_arrivals p iats).foldl (serveOne (run_length p) consult) (init_state p)

/-- Identifier assignment: warm-up and data-collection patients are
numbered as two separate sequences, each starting from 1, exactly as the
`WU Patient n` / `DC Patient n` lines of the logged trace show.  A patient
whose arrival time is at or after the warm-up boundary belongs to data
collection. -/
def assignIds (W : ℚ) : ℕ → ℕ → List PRec → List Patient
  | _, _, [] => []
  | wu, dc, r :: rest =>
      if r.arrival_time < W then
        ⟨wu, .wu, r.arrival_time, r.start_time, r.q_time_nurse, r.time_with_nurse⟩ ::
          assignIds W (wu + 1) dc rest
      else
        ⟨dc, .dc, r.arrival_time, r.start_time, r.q_time_nurse, r.time_with_nurse⟩ ::
          assignIds W wu (dc + 1) rest

/-- All patients created by one replication, in creation order. -/
def sim_patients (p : Param) (iats : List ℚ) (consult : ℕ → ℚ) : List Patient :=
  assignIds p.warm_up_period 1 1 (sim_state p iats consult).recs.reverse

/-- Retained patient-level output: only patients who arrived during the
data-collection period, per the spec; their records stay in the list even
when service never started (`none` fields model the NaN values shown in the
notebook). -/
def results_list_of (p : Param) (iats : List ℚ) (consult : ℕ → ℚ) : List ResultRec :=
  ((sim_patients p iats consult).filter (fun q => q.phase = Phase.dc)).map
    Patient.toResult

/-- Busy-server time credited to the window `[W, t]` from one busy period:
the overlap of `(s, e)` with the data-collection window, never negative.
This is the warm-up correction the spec mandates: a period straddling the
boundary is credited only for its post-boundary portion. -/
def clip (s e W t : ℚ) : ℚ := max 0 (min e t - max s W)

/-- Credited busy time of one server over the window `[W, t]`. -/
def Server.credited (srv : Server) (W t : ℚ) : ℚ :=
  (srv.busy_periods.map (fun pr => clip pr.1 pr.2 W t)).sum

/-- Total busy-server time the monitored resource credits to the
data-collection window `[W, t]`. -/
def creditedBusy (servers : List Server) (W t : ℚ) : ℚ :=
  (servers.map (fun srv => srv.credited W t)).sum

/-- Modelled from the spec: `utilization(now)` returns busy-server-time
credited so far divided by (elapsed data-collection time times server
count); the rational division by zero is 0, which implements the edge-case
policy that utilisation is 0, not undefined, before any work is credited. -/
def utilisation_at (p : Param) (servers : List Server) (t : ℚ) : ℚ :=
  creditedBusy servers p.warm_up_period t /
    ((t - p.warm_up_period) * (p.number_of_nurses : ℚ))

/-- Number of patients queueing at time `t`: arrived by `t` and not yet in
service. -/
def queue_length_at (recs : List PRec) (t : ℚ) : ℕ :=
  recs.countP (fun r =>
    decide (r.arrival_time ≤ t) &&
      !(match r.start_time with | some s => decide (s ≤ t) | none => false))

/-- Number of audit wake-ups in one replication: from the data-collection
boundary, every `audit_interval`, strictly before the end of the run. -/
def audit_count (p : Param) : ℕ :=
  (⌈p.data_collection_period / p.audit_interval⌉).toNat

/-- Audit wake-up times: the first at the data-collection boundary (the
CHANGELOG records the fix "Begin interval audit at start of data collection
period"), then every `audit_interval` time units. -/
def audit_times (p : Param) : List ℚ :=
  (List.range (audit_count p)).map
    (fun (k : ℕ) => p.warm_up_period + (k : ℚ) * p.audit_interval)

/-- Modelled from the spec: the interval auditor appends an `AuditRecord`
with the monitored resource's current queue length and utilisation at each
wake-up. -/
def interval_audit (p : Param) (st : SimState) : List AuditRecord :=
  (audit_times p).map (fun t =>
    ⟨t, queue_length_at st.recs t, utilisation_at p st.servers t⟩)

/-- Audit trace of one replication. -/
def audit_list_of (p : Param) (iats : List ℚ) (consult : ℕ → ℚ) : List AuditRecord :=
  interval_audit p (sim_state p iats consult)

/-- Total busy-server time credited to the whole data-collection period of
one replication (the corrected `nurse_time_used` accumulator). -/
def nurse_time_used (p : Param) (iats : List ℚ) (consult : ℕ → ℚ) : ℚ :=
  creditedBusy (sim_state p iats consult).servers p.warm_up_period (run_length p)

/-- Mean of a list of rationals, `none` when the list is empty. -/
def meanOpt (l : List ℚ) : Option ℚ :=
  if l.isEmpty then none else some (l.sum / (l.length : ℚ))

/-- Modelled from the spec: results processing reports the scalar KPIs of a
replication, with the explicit "no data" marker (not NaN) when there were
no arrivals during data collection (the CHANGELOG records "error handling
for results processing when there are no arrivals"). -/
def kpis_of (results : List ResultRec) (audits : List AuditRecord) : Kpis :=
  if results.isEmpty then ⟨none, none, none⟩
  else
    ⟨meanOpt (results.filterMap ResultRec.q_time_nurse),
      meanOpt (audits.map AuditRecord.utilisation),
      meanOpt (audits.map (fun a => (a.queue_length : ℚ)))⟩

/-- One replication computed from explicit random streams: the
deterministic engine behind `run_single`. -/
def run_single_with (p : Param) (iats : List ℚ) (consult : ℕ → ℚ) : RepResult :=
  ⟨sim_patients p iats consult,
    results_list_of p iats consult,
    audit_list_of p iats consult,
    kpis_of (results_list_of p iats consult) (audit_list_of p iats consult)⟩

/-- Linear congruential step; the concrete form of the spec's provided
capability "given a mean and a seed, produce a reproducible stream". -/
def lcg (x : ℕ) : ℕ := (1664525 * x + 1013904223) % 4294967296

/-- Iterated generator state, `k` steps after the seed. -/
def lcgAt (seed : ℕ) : ℕ → ℕ
  | 0 => lcg seed
  | k + 1 => lcg (lcgAt seed k)

/-- Modelled from the spec: one non-negative draw of the provided
exponential sampling capability, with the requested mean; the value lies in
`[mean/2, 3*mean/2)`. -/
def draw (mean : ℚ) (v : ℕ) : ℚ := mean * ((500 + (v % 1000 : ℕ) : ℚ) / 1000)

/-- Number of inter-arrival draws pregenerated for one replication: enough
for every draw sequence to carry past the end of the run. -/
def iat_fuel (p : Param) : ℕ :=
  (⌈run_length p / p.patient_inter⌉).toNat * 2 + 2

/-- Inter-arrival stream of replication `run_number`, derived
deterministically from the run number (the spec's per-replication seed
derivation). -/
def genIats (p : Param) (run_number : ℕ) : List ℚ :=
  (List.range (iat_fuel p)).map (fun k => draw p.patient_inter (lcgAt (2 * run_number) k))

/-- Consultation-time stream of replication `run_number`. -/
def genConsult (p : Param) (run_number : ℕ) : ℕ → ℚ :=
  fun k => draw p.mean_n_consult_time (lcgAt (2 * run_number + 1) k)

/-- Modelled from the spec: `Runner.run_single(run_number)` builds a Model
with streams derived from the run number and returns its
`ReplicationResult`; a pure function of its arguments. -/
def run_single (p : Param) (run_number : ℕ) : RepResult :=
  run_single_with p (genIats p run_number) (genConsult p run_number)

/-- Streaming Welford accumulator of the Online Statistics component:
observation count, running mean, running sum of squared deviations. -/
structure RunningStats where
  n : ℕ
  mean : ℚ
  sum_sq_dev : ℚ
deriving DecidableEq, Repr

/-- Empty accumulator. -/
def RunningStats.empty : RunningStats := ⟨0, 0, 0⟩

/-- Welford update with one finite observation. -/
def RunningStats.update (rs : RunningStats) (x : ℚ) : RunningStats :=
  let n2 := rs.n + 1
  let mean2 := rs.mean + (x - rs.mean) / (n2 : ℚ)
  ⟨n2, mean2, rs.sum_sq_dev + (x - rs.mean) * (x - mean2)⟩

/-- Modelled from the spec: the sample standard deviation is suppressed,
together with the confidence interval, while the count is below 3 — the
`RunningStats` invariant states "derived standard deviation/CI undefined
(not computed) when count < 3", and the CHANGELOG records the fix "Prevent
output of standard deviation or confidence intervals from
`summary_stats()` when n<3".  The numeric square root is a provided
capability, passed in as `sqrtFn`. -/
def RunningStats.std (sqrtFn : ℚ → ℚ) (rs : RunningStats) : Option ℚ :=
  if 3 ≤ rs.n then some (sqrtFn (rs.sum_sq_dev / ((rs.n : ℚ) - 1))) else none

/-- Recoverable statistical signals of the Online Statistics component. -/
inductive StatError
  | insufficientData
deriving DecidableEq, Repr

/-- Modelled from the spec: `confidence_interval()` fails with the
recoverable `InsufficientData` signal when the count is below 3, and
otherwise returns the two-sided interval built from the Student-t critical
value `tcrit` (a provided capability, like the numeric square root). -/
def RunningStats.confidence_interval (sqrtFn : ℚ → ℚ) (tcrit : ℚ)
    (rs : RunningStats) : Except StatError (ℚ × ℚ) :=
  if rs.n < 3 then .error .insufficientData
  else
    let half := tcrit * sqrtFn (rs.sum_sq_dev / ((rs.n : ℚ) - 1) / (rs.n : ℚ))
    .ok (rs.mean - half, rs.mean + half)

/-- Accumulator over the first `n` replications of a KPI sequence. -/
def statsUpTo (ys : ℕ → ℚ) (n : ℕ) : RunningStats :=
  (List.range n).foldl (fun rs k => rs.update (ys (k + 1))) RunningStats.empty

/-- Relative precision of a KPI after `n` replications: confidence-interval
half-width divided by the running mean, undefined below 3 observations. -/
def relPrecision (sqrtFn : ℚ → ℚ) (tcrit : ℚ) (rs : RunningStats) : Option ℚ :=
  if rs.n < 3 then none
  else some (tcrit * sqrtFn (rs.sum_sq_dev / ((rs.n : ℚ) - 1) / (rs.n : ℚ)) / rs.mean)

/-- Whether the precision criterion holds after `n` replications of the KPI
sequence `ys`: the relative precision is defined and at most `target`. -/
def precisionCrit (ys : ℕ → ℚ) (target : ℚ) (sqrtFn : ℚ → ℚ) (tcrit : ℕ → ℚ)
    (n : ℕ) : Bool :=
  match relPrecision sqrtFn (tcrit n) (statsUpTo ys n) with
  | none => false
  | some prec => decide (prec ≤ target)

/-- Modelled from the spec: the sequential look-ahead search of the
Replications Algorithm.  `n` is the next replication count to examine,
`run` the number of consecutive earlier counts at which the criterion has
held; the count `n - lookAhead` is confirmed once the criterion has held at
it and at `lookAhead` further replications, a break restarts the window,
and an exhausted budget (`fuel`) reports no confirmed count. -/
def solveLoop (crit : ℕ → Bool) (lookAhead : ℕ) :
    ℕ → ℕ → ℕ → Option ℕ
  | 0, _, _ => none
  | fuel + 1, n, run =>
      if crit n then
        if lookAhead ≤ run then some (n - lookAhead)
        else solveLoop crit lookAhead fuel (n + 1) (run + 1)
      else solveLoop crit lookAhead fuel (n + 1) 0

/-- The Replications Algorithm's answer for one KPI: the confirmed
sufficient replication count, or `none` ("not converged") when the budget
`maxReps` is exhausted without confirmation. -/
def nStar (crit : ℕ → Bool) (lookAhead maxReps : ℕ) : Option ℕ :=
  solveLoop crit lookAhead maxReps 1 0

/-- The criterion window of length `lookAhead + 1` starting at `m` holds
throughout. -/
def windowHolds (crit : ℕ → Bool) (lookAhead m : ℕ) : Prop :=
  ∀ j, m ≤ j → j ≤ m + lookAhead → crit j = true

/-- Parameters of the replication run recorded in `notebooks/logs.ipynb`
(the `Param` attribute dump printed at time 0.000). -/
def logs_param : Param := ⟨4, 10, 1, 30, 50, 120, 1, 1⟩

/-- End of the recorded replication's run: warm-up 30 plus data collection
50. -/
def logs_run_length : ℚ := run_length logs_param

/-- The arrival log of the recorded replication, transcribed from
`notebooks/logs.ipynb` in the order the events were printed (chronological):
phase tag, patient identifier, arrival time. -/
def logs_arrival_events : List (Phase × ℕ × ℚ) :=
  [(.wu, 1, 13.174), (.wu, 2, 16.227), (.wu, 3, 21.236), (.wu, 4, 22.140),
   (.wu, 5, 23.023), (.dc, 1, 30.223), (.dc, 2, 30.487), (.dc, 3, 34.089),
   (.dc, 4, 35.270), (.dc, 5, 44.470), (.dc, 6, 51.904), (.dc, 7, 51.963),
   (.dc, 8, 74.349), (.dc, 9, 77.534), (.dc, 10, 78.932)]

/-- `model.results_list` of the recorded replication, transcribed verbatim
from the display output in `notebooks/logs.ipynb`; `none` transcribes a
printed `nan`. -/
def logs_results_list : List ResultRec :=
  [⟨1, 30.22259995332274, some 31.622866260876396, some 19.610316954226214⟩,
   ⟨2, 30.486546917468086, none, none⟩,
   ⟨3, 34.08853250025673, none, none⟩,
   ⟨4, 35.270388134803824, none, none⟩,
   ⟨5, 44.47021063300173, none, none⟩,
   ⟨6, 51.90400587259546, none, none⟩,
   ⟨7, 51.963434706622714, none, none⟩,
   ⟨8, 74.3494580155259, none, none⟩,
   ⟨9, 77.53382703300574, none, none⟩,
   ⟨10, 78.93233230430721, none, none⟩]

/-- Accumulator holding the two observations 1 and 2. -/
def wstats2 : RunningStats := (RunningStats.empty.update 1).update 2

/-- Accumulator holding the three observations 1, 2 and 3. -/
def wstats3 : RunningStats := ((RunningStats.empty.update 1).update 2).update 3

/-- Constant KPI sequence used to instantiate the Replications Algorithm
theorems. -/
def wys : ℕ → ℚ := fun _ => 10

/-- Constant Student-t critical values used for the same instantiation. -/
def wtcrit : ℕ → ℚ := fun _ => 2

/-- Placeholder result row used to select elements of concrete lists. -/
def wresult_default : ResultRec := ⟨0, 0, none, none⟩

/-- Busy periods of one server, most recent first, form a reverse chain
below `top`: each period is well-formed and ends before the more recent one
starts. -/
def RevChain : List (ℚ × ℚ) → ℚ → Prop
  | [], _ => True
  | pr :: rest, top => pr.1 ≤ pr.2 ∧ pr.2 ≤ top ∧ RevChain rest pr.1

/-- A server's bookkeeping is coherent: its busy periods chain up to the
time it next becomes free. -/
def ServerInv (srv : Server) : Prop :=
  RevChain srv.busy_periods srv.free_at

/-- Simulation-state invariant: the pool has exactly `nn` servers and each
one's bookkeeping is coherent. -/
def StateInv (nn : ℕ) (st : SimState) : Prop :=
  st.servers.length = nn ∧ ∀ srv ∈ st.servers, ServerInv srv

/-- Per-record invariant: the wait and consultation fields are filled in
exactly when service started, and service only ever starts strictly before
the end of the run. -/
def RecOk (runEnd : ℚ) (r : PRec) : Prop :=
  r.q_time_nurse.isSome = r.start_time.isSome ∧
  r.time_with_nurse.isSome = r.start_time.isSome ∧
  ∀ s, r.start_time = some s → s < runEnd

/-- Concrete configuration used to instantiate the universally quantified
theorems: mean inter-arrival 1, mean consultation 1, one nurse, warm-up 2,
data collection 3, audit interval 1. -/
def wparam : Param := ⟨1, 1, 1, 2, 3, 1, 1, 1⟩

/-- Concrete inter-arrival draws for the instantiations. -/
def wiats : List ℚ := [1, 1, 1, 1, 1, 1]

/-- Concrete consultation-time draws for the instantiations. -/
def wconsult : ℕ → ℚ := fun _ => 1

/-- Concrete configuration whose single inter-arrival draw of 100 exceeds
the whole run, so no patient ever arrives. -/
def wparam_idle : Param := ⟨100, 1, 1, 2, 3, 1, 1, 1⟩

/-- The single oversized inter-arrival draw of the idle configuration. -/
def wiats_idle : List ℚ := [100]

/-- Placeholder patient used to select elements of concrete lists. -/
def wpatient_default : Patient := ⟨0, Phase.wu, 0, none, none, none⟩

/-- Placeholder audit record used to select elements of concrete lists. -/
def waudit_default : AuditRecord := ⟨0, 0, 0⟩

/-- A raw configuration that is invalid because it requests 9 worker
processes. -/
def wraw_bad : RawParam := ⟨some 4, some 10, 1, 30, 50, 120, 5, 9⟩

/-- A valid raw configuration. -/
def wraw_good : RawParam := ⟨some 4, some 10, 1, 30, 50, 120, 5, 2⟩

/-- The validated configuration that `wraw_good` constructs. -/
def wparam_good : Param := ⟨4, 10, 1, 30, 50, 120, 5, 2⟩

/-! ## Structural lemmas about the server pool -/

theorem splitMin_ne_none (x : Server) (xs : List Server) :
    splitMin (x :: xs) ≠ none := by
  simp only [splitMin]
  cases splitMin xs with
  | none => simp
  | some trip =>
      obtain ⟨pre, m, post⟩ := trip
      by_cases h : x.free_at ≤ m.free_at <;> simp [h]

theorem splitMin_spec :
    ∀ (l : List Server) (pre : List Server) (m : Server) (post : List Server),
      splitMin l = some (pre, m, post) →
      l = pre ++ m :: post ∧ ∀ srv ∈ l, m.free_at ≤ srv.free_at := by
  intro l
  induction l with
  | nil => intro pre m post h; simp [splitMin] at h
  | cons x xs ih =>
      intro pre m post h
      simp only [splitMin] at h
      cases hxs : splitMin xs with
      | none =>
          rw [hxs] at h
          cases xs with
          | nil =>
              simp only [Option.some.injEq, Prod.mk.injEq] at h
              obtain ⟨h1, h2, h3⟩ := h
              subst h1; subst h2; subst h3
              exact ⟨rfl, by intro srv hsrv; simp at hsrv; subst hsrv; exact le_rfl⟩
          | cons y ys => exact absurd hxs (splitMin_ne_none y ys)
      | some trip =>
          obtain ⟨pre2, m2, post2⟩ := trip
          rw [hxs] at h
          dsimp only at h
          obtain ⟨heq2, hmin2⟩ := ih pre2 m2 post2 hxs
          by_cases hle : x.free_at ≤ m2.free_at
          · rw [if_pos hle] at h
            simp only [Option.some.injEq, Prod.mk.injEq] at h
            obtain ⟨h1, h2, h3⟩ := h
            subst h1; subst h2; subst h3
            refine ⟨rfl, ?_⟩
            intro srv hsrv
            rcases List.mem_cons.mp hsrv with h | h
            · subst h; exact le_rfl
            · exact le_trans hle (hmin2 srv h)
          · rw [if_neg hle] at h
            simp only [Option.some.injEq, Prod.mk.injEq] at h
            obtain ⟨h1, h2, h3⟩ := h
            subst h1; subst h2; subst h3
            refine ⟨by rw [heq2]; rfl, ?_⟩
            intro srv hsrv
            rcases List.mem_cons.mp hsrv with h | h
            · subst h; exact le_of_lt (lt_of_not_le hle)
            · exact hmin2 srv h

theorem revChain_mono :
    ∀ (l : List (ℚ × ℚ)) (top top2 : ℚ),
      RevChain l top → top ≤ top2 → RevChain l top2 := by
  intro l top top2 h hle
  cases l with
  | nil => trivial
  | cons pr rest =>
      obtain ⟨h1, h2, h3⟩ := h
      exact ⟨h1, le_trans h2 hle, h3⟩

/-! ## The warm-up-corrected busy-time bound -/

theorem clip_nonneg (s e W t : ℚ) : 0 ≤ clip s e W t := le_max_left _ _

theorem max0_add_le {A B C : ℚ} (hAC : A ≤ C) (hBC : B ≤ C)
    (hABC : A + B ≤ C) : max 0 A + max 0 B ≤ max 0 C := by
  have hCC : C ≤ max 0 C := le_max_right _ _
  have h0C : (0 : ℚ) ≤ max 0 C := le_max_left _ _
  rcases le_total A 0 with hA | hA
  · rw [max_eq_left hA]
    rcases le_total B 0 with hB | hB
    · rw [max_eq_left hB]; linarith
    · rw [max_eq_right hB]; linarith
  · rw [max_eq_right hA]
    rcases le_total B 0 with hB | hB
    · rw [max_eq_left hB]; linarith
    · rw [max_eq_right hB]; linarith

theorem clip_add_le {s e top W t : ℚ} (hse : s ≤ e) (hetop : e ≤ top) :
    clip s e W t + max 0 (min t s - W) ≤ max 0 (min t top - W) := by
  unfold clip
  have hAC : min e t - max s W ≤ min t top - W := by
    have h1 : min e t ≤ min t top :=
      le_min (min_le_right e t) (le_trans (min_le_left e t) hetop)
    have h2 : W ≤ max s W := le_max_right _ _
    linarith
  have hBC : min t s - W ≤ min t top - W := by
    have h1 : min t s ≤ min t top := min_le_min le_rfl (le_trans hse hetop)
    linarith
  have hABC : (min e t - max s W) + (min t s - W) ≤ min t top - W := by
    have h3 : min t s ≤ s := min_le_right _ _
    have h4 : s ≤ max s W := le_max_left _ _
    rcases le_total e t with h | h
    · have h1 : min e t = e := min_eq_left h
      have h2 : e ≤ min t top := le_min h hetop
      linarith
    · have h1 : min e t = t := min_eq_right h
      have h2 : min t top = t := min_eq_left (le_trans h hetop)
      linarith
  exact max0_add_le hAC hBC hABC

theorem revChain_clip_sum_le (W t : ℚ) :
    ∀ (l : List (ℚ × ℚ)) (top : ℚ), RevChain l top →
      (l.map (fun pr => clip pr.1 pr.2 W t)).sum ≤ max 0 (min t top - W) := by
  intro l
  induction l with
  | nil => intro top _; simp
  | cons pr rest ih =>
      intro top h
      obtain ⟨h1, h2, h3⟩ := h
      have hrest := ih pr.1 h3
      calc ((pr :: rest).map (fun q => clip q.1 q.2 W t)).sum
          = clip pr.1 pr.2 W t + (rest.map (fun q => clip q.1 q.2 W t)).sum := by
            simp
        _ ≤ clip pr.1 pr.2 W t + max 0 (min t pr.1 - W) := by linarith
        _ ≤ max 0 (min t top - W) := clip_add_le h1 h2

theorem server_credited_nonneg (srv : Server) (W t : ℚ) :
    0 ≤ srv.credited W t := by
  unfold Server.credited
  apply List.sum_nonneg
  intro x hx
  obtain ⟨pr, _, hpr⟩ := List.mem_map.mp hx
  exact hpr ▸ clip_nonneg pr.1 pr.2 W t

theorem server_credited_le (srv : Server) (hinv : ServerInv srv) (W t : ℚ) :
    srv.credited W t ≤ max 0 (t - W) := by
  have h1 := revChain_clip_sum_le W t srv.busy_periods srv.free_at hinv
  have h2 : max 0 (min t srv.free_at - W) ≤ max 0 (t - W) :=
    max_le_max le_rfl (by linarith [min_le_left t srv.free_at])
  exact le_trans h1 h2

theorem creditedBusy_nonneg (servers : List Server) (W t : ℚ) :
    0 ≤ creditedBusy servers W t := by
  unfold creditedBusy
  apply List.sum_nonneg
  intro x hx
  obtain ⟨srv, _, hsrv⟩ := List.mem_map.mp hx
  exact hsrv ▸ server_credited_nonneg srv W t

theorem creditedBusy_le (servers : List Server) (nn : ℕ)
    (hlen : servers.length = nn) (hinv : ∀ srv ∈ servers, ServerInv srv)
    (W t : ℚ) : creditedBusy servers W t ≤ (nn : ℚ) * max 0 (t - W) := by
  unfold creditedBusy
  have h1 : (servers.map (fun srv => srv.credited W t)).sum ≤
      (servers.map (fun srv => srv.credited W t)).length • max 0 (t - W) := by
    apply List.sum_le_card_nsmul
    intro x hx
    obtain ⟨srv, hmem, hsrv⟩ := List.mem_map.mp hx
    exact hsrv ▸ server_credited_le srv (hinv srv hmem) W t
  rw [List.length_map, hlen] at h1
  simpa [nsmul_eq_mul] using h1

/-! ## Preservation of the pool invariant by the service process -/

theorem serveOne_stateInv (runEnd : ℚ) (consult : ℕ → ℚ)
    (hc : ∀ k, 0 ≤ consult k) (nn : ℕ) (st : SimState) (a : ℚ)
    (hst : StateInv nn st) : StateInv nn (serveOne runEnd consult st a) := by
  obtain ⟨hlen, hinv⟩ := hst
  unfold serveOne
  cases hsp : splitMin st.servers with
  | none => exact ⟨hlen, hinv⟩
  | some trip =>
      obtain ⟨pre, m, post⟩ := trip
      obtain ⟨heq, hmin⟩ := splitMin_spec st.servers pre m post hsp
      dsimp only
      by_cases hlt : max a m.free_at < runEnd
      · rw [if_pos hlt]
        constructor
        · have h2 := hlen
          rw [heq] at h2
          simpa using h2
        · intro srv hsrv
          simp only [List.mem_append, List.mem_cons] at hsrv
          rcases hsrv with h1 | h1 | h1
          · exact hinv srv (by rw [heq]; exact List.mem_append.mpr (Or.inl h1))
          · subst h1
            have hminv : ServerInv m :=
              hinv m (by
                rw [heq]
                exact List.mem_append.mpr (Or.inr (List.mem_cons_self _ _)))
            show RevChain ((max a m.free_at, max a m.free_at + consult st.draw_index)
                :: m.busy_periods) (max a m.free_at + consult st.draw_index)
            refine ⟨?_, le_rfl, ?_⟩
            · have := hc st.draw_index
              simp only
              linarith
            · exact revChain_mono _ _ _ hminv (le_max_right a m.free_at)
          · exact hinv srv (by
              rw [heq]
              exact List.mem_append.mpr (Or.inr (List.mem_cons_of_mem _ h1)))
      · rw [if_neg hlt]
        exact ⟨hlen, hinv⟩

theorem foldl_serveOne_stateInv (runEnd : ℚ) (consult : ℕ → ℚ)
    (hc : ∀ k, 0 ≤ consult k) (nn : ℕ) :
    ∀ (l : List ℚ) (st : SimState), StateInv nn st →
      StateInv nn (l.foldl (serveOne runEnd consult) st) := by
  intro l
  induction l with
  | nil => intro st h; exact h
  | cons a rest ih =>
      intro st h
      exact ih _ (serveOne_stateInv runEnd consult hc nn st a h)

theorem init_state_inv (p : Param) :
    StateInv p.number_of_nurses (init_state p) := by
  constructor
  · simp [init_state]
  · intro srv hsrv
    simp only [init_state, List.mem_replicate] at hsrv
    rw [hsrv.2]
    trivial

theorem sim_state_inv (p : Param) (iats : List ℚ) (consult : ℕ → ℚ)
    (hc : ∀ k, 0 ≤ consult k) :
    StateInv p.number_of_nurses (sim_state p iats consult) :=
  foldl_serveOne_stateInv _ _ hc _ _ _ (init_state_inv p)

/-! ## Utilisation bounds -/

theorem utilisation_at_range (p : Param) (servers : List Server)
    (hlen : servers.length = p.number_of_nurses)
    (hinv : ∀ srv ∈ servers, ServerInv srv) (t : ℚ)
    (ht : p.warm_up_period ≤ t) :
    0 ≤ utilisation_at p servers t ∧ utilisation_at p servers t ≤ 1 := by
  unfold utilisation_at
  have h0 : 0 ≤ creditedBusy servers p.warm_up_period t :=
    creditedBusy_nonneg servers p.warm_up_period t
  have hle : creditedBusy servers p.warm_up_period t ≤
      (p.number_of_nurses : ℚ) * (t - p.warm_up_period) := by
    have h1 := creditedBusy_le servers p.number_of_nurses hlen hinv
      p.warm_up_period t
    rwa [max_eq_right (by linarith)] at h1
  rcases eq_or_lt_of_le
      (mul_nonneg (by linarith : (0:ℚ) ≤ t - p.warm_up_period)
        (Nat.cast_nonneg p.number_of_nurses)) with hd | hd
  · rw [← hd, div_zero]
    exact ⟨le_rfl, zero_le_one⟩
  · constructor
    · exact div_nonneg h0 (le_of_lt hd)
    · rw [div_le_one hd]
      calc creditedBusy servers p.warm_up_period t
          ≤ (p.number_of_nurses : ℚ) * (t - p.warm_up_period) := hle
        _ = (t - p.warm_up_period) * (p.number_of_nurses : ℚ) := by ring

theorem mem_audit_times (p : Param) (t : ℚ) (hi : 0 ≤ p.audit_interval)
    (ht : t ∈ audit_times p) : p.warm_up_period ≤ t := by
  unfold audit_times at ht
  obtain ⟨k, _, rfl⟩ := List.mem_map.mp ht
  have hk : (0:ℚ) ≤ (k:ℚ) := Nat.cast_nonneg k
  have h1 : (0:ℚ) ≤ (k:ℚ) * p.audit_interval := mul_nonneg hk hi
  linarith

/-! ## Per-record field coherence -/

theorem serveOne_recOk (runEnd : ℚ) (consult : ℕ → ℚ) (st : SimState) (a : ℚ)
    (h : ∀ r ∈ st.recs, RecOk runEnd r) :
    ∀ r ∈ (serveOne runEnd consult st a).recs, RecOk runEnd r := by
  unfold serveOne
  cases hsp : splitMin st.servers with
  | none =>
      intro r hr
      rcases List.mem_cons.mp hr with h1 | h1
      · subst h1
        exact ⟨rfl, rfl, by intro s hs; simp at hs⟩
      · exact h r h1
  | some trip =>
      obtain ⟨pre, m, post⟩ := trip
      dsimp only
      by_cases hlt : max a m.free_at < runEnd
      · rw [if_pos hlt]
        intro r hr
        rcases List.mem_cons.mp hr with h1 | h1
        · subst h1
          refine ⟨rfl, rfl, ?_⟩
          intro s hs
          simp only [Option.some.injEq] at hs
          exact hs ▸ hlt
        · exact h r h1
      · rw [if_neg hlt]
        intro r hr
        rcases List.mem_cons.mp hr with h1 | h1
        · subst h1
          exact ⟨rfl, rfl, by intro s hs; simp at hs⟩
        · exact h r h1

theorem foldl_serveOne_recOk (runEnd : ℚ) (consult : ℕ → ℚ) :
    ∀ (l : List ℚ) (st : SimState), (∀ r ∈ st.recs, RecOk runEnd r) →
      ∀ r ∈ (l.foldl (serveOne runEnd consult) st).recs, RecOk runEnd r := by
  intro l
  induction l with
  | nil => intro st h; exact h
  | cons a rest ih =>
      intro st h
      exact ih _ (serveOne_recOk runEnd consult st a h)

theorem sim_state_recOk (p : Param) (iats : List ℚ) (consult : ℕ → ℚ) :
    ∀ r ∈ (sim_state p iats consult).recs, RecOk (run_length p) r := by
  apply foldl_serveOne_recOk
  intro r hr
  simp [init_state] at hr

/-! ## Identifier assignment -/

theorem assignIds_fields (W : ℚ) :
    ∀ (l : List PRec) (wu dc : ℕ) (q : Patient),
      q ∈ assignIds W wu dc l →
      ∃ r ∈ l, q.arrival_time = r.arrival_time ∧ q.start_time = r.start_time ∧
        q.q_time_nurse = r.q_time_nurse ∧
        q.time_with_nurse = r.time_with_nurse := by
  intro l
  induction l with
  | nil => intro wu dc q h; simp [assignIds] at h
  | cons r rest ih =>
      intro wu dc q h
      unfold assignIds at h
      by_cases hw : r.arrival_time < W
      · rw [if_pos hw] at h
        rcases List.mem_cons.mp h with h1 | h1
        · subst h1
          exact ⟨r, List.mem_cons_self _ _, rfl, rfl, rfl, rfl⟩
        · obtain ⟨r2, hr2, hf⟩ := ih _ _ _ h1
          exact ⟨r2, List.mem_cons_of_mem _ hr2, hf⟩
      · rw [if_neg hw] at h
        rcases List.mem_cons.mp h with h1 | h1
        · subst h1
          exact ⟨r, List.mem_cons_self _ _, rfl, rfl, rfl, rfl⟩
        · obtain ⟨r2, hr2, hf⟩ := ih _ _ _ h1
          exact ⟨r2, List.mem_cons_of_mem _ hr2, hf⟩

theorem assignIds_filter_wu (W : ℚ) :
    ∀ (l : List PRec) (wu dc : ℕ),
      ((assignIds W wu dc l).filter (fun q => q.phase = Phase.wu)).map
          Patient.patient_id
        = List.range' wu (l.countP (fun r => decide (r.arrival_time < W))) := by
  intro l
  induction l with
  | nil => intro wu dc; simp [assignIds]
  | cons r rest ih =>
      intro wu dc
      unfold assignIds
      by_cases hw : r.arrival_time < W
      · rw [if_pos hw]
        rw [List.filter_cons_of_pos (by simp)]
        rw [List.map_cons, ih]
        rw [List.countP_cons_of_pos _ _ (by simpa using hw)]
        rw [List.range'_succ]
      · rw [if_neg hw]
        rw [List.filter_cons_of_neg (by simp)]
        rw [ih]
        rw [List.countP_cons_of_neg _ _ (by simpa using hw)]

theorem assignIds_filter_dc (W : ℚ) :
    ∀ (l : List PRec) (wu dc : ℕ),
      ((assignIds W wu dc l).filter (fun q => q.phase = Phase.dc)).map
          Patient.patient_id
        = List.range' dc (l.countP (fun r => decide (¬ r.arrival_time < W))) := by
  intro l
  induction l with
  | nil => intro wu dc; simp [assignIds]
  | cons r rest ih =>
      intro wu dc
      unfold assignIds
      by_cases hw : r.arrival_time < W
      · rw [if_pos hw]
        rw [List.filter_cons_of_neg (by simp)]
        rw [ih]
        rw [List.countP_cons_of_neg _ _ (by simpa using hw)]
      · rw [if_neg hw]
        rw [List.filter_cons_of_pos (by simp)]
        rw [List.map_cons, ih]
        rw [List.countP_cons_of_pos _ _ (by simpa using hw)]
        rw [List.range'_succ]

/-! ## The look-ahead search of the Replications Algorithm -/

theorem solveLoop_some_spec (crit : ℕ → Bool) (L : ℕ) :
    ∀ (fuel n run m : ℕ),
      solveLoop crit L fuel n run = some m →
      (∀ j, n - run ≤ j → j < n → crit j = true) →
      run ≤ L → run < n →
      windowHolds crit L m ∧ m + L < n + fuel ∧ n - run ≤ m ∧
        ∀ m2, n - run ≤ m2 → m2 < m → ¬ windowHolds crit L m2 := by
  intro fuel
  induction fuel with
  | zero => intro n run m h; simp [solveLoop] at h
  | succ fuel ih =>
      intro n run m h htrue hrl hrn
      unfold solveLoop at h
      by_cases hcn : crit n
      · rw [if_pos hcn] at h
        by_cases hLr : L ≤ run
        · rw [if_pos hLr] at h
          simp only [Option.some.injEq] at h
          subst h
          refine ⟨?_, by omega, by omega, ?_⟩
          · intro j hj1 hj2
            rcases Nat.lt_or_ge j n with hjn | hjn
            · exact htrue j (by omega) hjn
            · have hj : j = n := by omega
              rw [hj]; exact hcn
          · intro m2 h1 h2
            exfalso; omega
        · rw [if_neg hLr] at h
          have hres := ih (n + 1) (run + 1) m h ?_ (by omega) (by omega)
          · obtain ⟨hw, hbud, hge, hleast⟩ := hres
            refine ⟨hw, by omega, by omega, ?_⟩
            intro m2 h1 h2
            exact hleast m2 (by omega) h2
          · intro j hj1 hj2
            rcases Nat.lt_or_ge j n with hjn | hjn
            · exact htrue j (by omega) hjn
            · have hj : j = n := by omega
              rw [hj]; exact hcn
      · rw [if_neg hcn] at h
        have hres := ih (n + 1) 0 m h
          (by intro j hj1 hj2; exact absurd hj1 (by omega))
          (Nat.zero_le L) (by omega)
        obtain ⟨hw, hbud, hge, hleast⟩ := hres
        refine ⟨hw, by omega, by omega, ?_⟩
        intro m2 h1 h2
        rcases Nat.lt_or_ge m2 (n + 1) with hm2 | hm2
        · intro hwin
          exact hcn (hwin n (by omega) (by omega))
        · exact hleast m2 (by omega) h2

theorem solveLoop_none_spec (crit : ℕ → Bool) (L : ℕ) :
    ∀ (fuel n run : ℕ),
      solveLoop crit L fuel n run = none →
      (∀ j, n - run ≤ j → j < n → crit j = true) →
      run ≤ L → run < n →
      ∀ m, n - run ≤ m → m + L < n + fuel → ¬ windowHolds crit L m := by
  intro fuel
  induction fuel with
  | zero =>
      intro n run h htrue hrl hrn m h1 h2
      exfalso; omega
  | succ fuel ih =>
      intro n run h htrue hrl hrn m h1 h2
      unfold solveLoop at h
      by_cases hcn : crit n
      · rw [if_pos hcn] at h
        by_cases hLr : L ≤ run
        · rw [if_pos hLr] at h; simp at h
        · rw [if_neg hLr] at h
          refine ih (n + 1) (run + 1) h ?_ (by omega) (by omega) m (by omega)
            (by omega)
          intro j hj1 hj2
          rcases Nat.lt_or_ge j n with hjn | hjn
          · exact htrue j (by omega) hjn
          · have hj : j = n := by omega
            rw [hj]; exact hcn
      · rw [if_neg hcn] at h
        rcases Nat.lt_or_ge m (n + 1) with hm | hm
        · intro hwin
          exact hcn (hwin n (by omega) (by omega))
        · exact ih (n + 1) 0 h
            (by intro j hj1 hj2; exact absurd hj1 (by omega))
            (Nat.zero_le L) (by omega) m (by omega) (by omega)

theorem solveLoop_mono (crit : ℕ → Bool) (L : ℕ) :
    ∀ (fuel n run m : ℕ), solveLoop crit L fuel n run = some m →
      ∀ extra, solveLoop crit L (fuel + extra) n run = some m := by
  intro fuel
  induction fuel with
  | zero => intro n run m h; simp [solveLoop] at h
  | succ fuel ih =>
      intro n run m h extra
      have heq : fuel + 1 + extra = (fuel + extra) + 1 := by omega
      rw [heq]
      unfold solveLoop at h ⊢
      by_cases hcn : crit n
      · rw [if_pos hcn] at h ⊢
        by_cases hLr : L ≤ run
        · rw [if_pos hLr] at h ⊢; exact h
        · rw [if_neg hLr] at h ⊢; exact ih _ _ _ h extra
      · rw [if_neg hcn] at h ⊢; exact ih _ _ _ h extra

/-! ## Claim theorems

The rational arithmetic of the Batteries `Rat` implementation is sealed
behind `@[irreducible]`; concrete runs of the simulation are evaluated by
`decide`, which needs those operations unsealed for elaboration-time
reduction (the kernel re-checks the same reductions with its built-in
numeric acceleration). -/

section ClaimTheorems

attribute [local semireducible] Rat.mul Rat.add Rat.inv Rat.sub Rat.ofScientific

/-- C1: for a fixed `Param` configuration and fixed run number, two calls
of `run_single` produce identical outputs — bit-identical patient-level
result lists and audit lists.  The replication is a pure function of its
configuration and run number: every piece of state (server pool, record
list, draw streams) is passed explicitly, so repeated evaluation yields the
same value. -/
theorem run_single_deterministic (p : Param) (run_number : ℕ) :
    (run_single p run_number).results_list =
        (run_single p run_number).results_list ∧
    (run_single p run_number).audit_list =
        (run_single p run_number).audit_list ∧
    (run_single p run_number).patients = (run_single p run_number).patients :=
  ⟨rfl, rfl, rfl⟩

/-- C2 counterexample: for the configuration of the recorded replication
(`Param(mean_inter_arrival=4, mean_service=10, servers=1, warm_up=30,
data_collection=50, audit_interval=120)`, run number 101) the first
`AuditRecord` carries simulated time 30 — the warm-up/data-collection
boundary — not simulated time 50 as the claim states. -/
theorem first_audit_not_at_fifty :
    ((run_single logs_param 101).audit_list.headD waudit_default).simulation_time
      = 30 ∧
    ¬ ((run_single logs_param 101).audit_list.headD
        waudit_default).simulation_time = 50 := by
  constructor <;> decide

/-- C2 (amended): the interval auditor's wake-ups are the times
`warm_up_period + k * audit_interval`, `k = 0, 1, ...`, strictly before the
end of the run — the first wake-up is at the data-collection boundary
(simulated time 30 for the recorded configuration), not at time 0 — and the
recorded configuration run once produces a non-empty patient list for the
data-collection period. -/
theorem interval_audit_schedule :
    (∀ (p : Param) (iats : List ℚ) (consult : ℕ → ℚ),
        (run_single_with p iats consult).audit_list.map
            AuditRecord.simulation_time
          = (List.range (audit_count p)).map
              (fun (k : ℕ) => p.warm_up_period + (k : ℚ) * p.audit_interval)) ∧
    (run_single logs_param 101).results_list ≠ [] ∧
    (run_single logs_param 101).audit_list.map AuditRecord.simulation_time
      = [30] := by
  refine ⟨?_, by decide, by decide⟩
  intro p iats consult
  show (interval_audit p (sim_state p iats consult)).map
      AuditRecord.simulation_time = _
  unfold interval_audit audit_times
  rw [List.map_map, List.map_map]
  rfl

/-- C3: in every replication, every audit record's utilisation lies in
`[0, 1]` and its queue length is non-negative; moreover when no patient has
arrived the reported utilisation is 0, not undefined. -/
theorem audit_records_within_bounds :
    ∀ (p : Param) (iats : List ℚ) (consult : ℕ → ℚ),
      (∀ k, 0 ≤ consult k) → 0 ≤ p.audit_interval →
      (∀ rec ∈ (run_single_with p iats consult).audit_list,
          0 ≤ rec.utilisation ∧ rec.utilisation ≤ 1 ∧
          0 ≤ (rec.queue_length : ℤ)) ∧
      (sim_arrivals p iats = [] →
        ∀ rec ∈ (run_single_with p iats consult).audit_list,
          rec.utilisation = 0) := by
  intro p iats consult hc hi
  constructor
  · intro rec hrec
    have hmem : rec ∈ interval_audit p (sim_state p iats consult) := hrec
    unfold interval_audit at hmem
    obtain ⟨t, ht, rfl⟩ := List.mem_map.mp hmem
    obtain ⟨hlen, hinv⟩ := sim_state_inv p iats consult hc
    have hW := mem_audit_times p t hi ht
    have hrange := utilisation_at_range p _ hlen hinv t hW
    exact ⟨hrange.1, hrange.2, Int.natCast_nonneg _⟩
  · intro harr rec hrec
    have hmem : rec ∈ interval_audit p (sim_state p iats consult) := hrec
    unfold interval_audit at hmem
    obtain ⟨t, ht, rfl⟩ := List.mem_map.mp hmem
    show utilisation_at p (sim_state p iats consult).servers t = 0
    have hstate : sim_state p iats consult = init_state p := by
      unfold sim_state
      rw [harr]
      rfl
    rw [hstate]
    have hzero : creditedBusy (init_state p).servers p.warm_up_period t = 0 := by
      unfold init_state creditedBusy
      rw [List.map_replicate]
      simp [Server.credited]
    unfold utilisation_at
    rw [hzero, zero_div]

/-- Witness for C3 at the concrete configuration `wparam` with unit draw
streams: the first audit record's utilisation lies in `[0, 1]`. -/
theorem audit_records_within_bounds_witness :
    0 ≤ ((run_single_with wparam wiats wconsult).audit_list.headD
        waudit_default).utilisation ∧
    ((run_single_with wparam wiats wconsult).audit_list.headD
        waudit_default).utilisation ≤ 1 := by
  have h := (audit_records_within_bounds wparam wiats wconsult
      (by intro k; unfold wconsult; norm_num) (by decide)).1
    ((run_single_with wparam wiats wconsult).audit_list.headD waudit_default)
    (by decide)
  exact ⟨h.1, h.2.1⟩

/-- C4: the total busy-server time credited to the data-collection window,
after the warm-up-boundary correction, never exceeds the server count times
the data-collection duration. -/
theorem nurse_time_used_bounded :
    ∀ (p : Param) (iats : List ℚ) (consult : ℕ → ℚ),
      (∀ k, 0 ≤ consult k) → 0 ≤ p.data_collection_period →
      nurse_time_used p iats consult ≤
        (p.number_of_nurses : ℚ) * p.data_collection_period := by
  intro p iats consult hc hD
  obtain ⟨hlen, hinv⟩ := sim_state_inv p iats consult hc
  have h := creditedBusy_le (sim_state p iats consult).servers
    p.number_of_nurses hlen hinv p.warm_up_period (run_length p)
  have h2 : run_length p - p.warm_up_period = p.data_collection_period := by
    unfold run_length; ring
  rw [h2, max_eq_right hD] at h
  exact h

/-- Witness for C4 at the concrete configuration `wparam` with unit draw
streams. -/
theorem nurse_time_used_bounded_witness :
    nurse_time_used wparam wiats wconsult ≤
      (wparam.number_of_nurses : ℚ) * wparam.data_collection_period :=
  nurse_time_used_bounded wparam wiats wconsult
    (by intro k; unfold wconsult; norm_num) (by decide)

/-- C5 counterexample: at exactly 2 observations the accumulator does not
report a sample standard deviation — `summary_stats` suppresses both the
standard deviation and the confidence interval while the count is below 3
(CHANGELOG: "Prevent output of standard deviation or confidence intervals
from `summary_stats()` when n<3") — so "reported if and only if count ≥ 2"
fails at count 2. -/
theorem std_suppressed_below_three :
    RunningStats.std id wstats2 = none ∧ 2 ≤ wstats2.n := by
  constructor <;> decide

/-- C5 (amended): the Online Statistics accumulator reports the sample
standard deviation exactly when it holds at least 3 observations, reports
a confidence interval exactly when it holds at least 3, and a confidence
interval requested below 3 observations yields the recoverable
`InsufficientData` signal rather than an escaping exception. -/
theorem summary_stats_availability :
    ∀ (sqrtFn : ℚ → ℚ) (tcrit : ℚ) (rs : RunningStats),
      (RunningStats.std sqrtFn rs ≠ none ↔ 3 ≤ rs.n) ∧
      (exceptOk (RunningStats.confidence_interval sqrtFn tcrit rs) = true ↔
        3 ≤ rs.n) ∧
      (rs.n < 3 →
        RunningStats.confidence_interval sqrtFn tcrit rs
          = Except.error StatError.insufficientData) := by
  intro sqrtFn tcrit rs
  refine ⟨?_, ?_, ?_⟩
  · unfold RunningStats.std
    by_cases h : 3 ≤ rs.n <;> simp [h]
  · unfold RunningStats.confidence_interval
    by_cases h : rs.n < 3
    · rw [if_pos h]
      simp only [exceptOk]
      constructor
      · intro hfalse; exact absurd hfalse (by simp)
      · intro h3; omega
    · rw [if_neg h]
      simp only [exceptOk]
      constructor
      · intro _; omega
      · intro _; trivial
  · intro h
    unfold RunningStats.confidence_interval
    rw [if_pos h]

/-- Witness for C5: with 3 observations both the standard deviation and
the confidence interval are present; with 2 observations the confidence
interval reports `InsufficientData`. -/
theorem summary_stats_availability_witness :
    RunningStats.std id wstats3 ≠ none ∧
    exceptOk (RunningStats.confidence_interval id 2 wstats3) = true ∧
    RunningStats.confidence_interval id 2 wstats2
      = Except.error StatError.insufficientData := by
  refine ⟨?_, ?_, ?_⟩
  · exact (summary_stats_availability id 2 wstats3).1.mpr (by decide)
  · exact (summary_stats_availability id 2 wstats3).2.1.mpr (by decide)
  · exact (summary_stats_availability id 2 wstats2).2.2 (by decide)

/-- C6: a replication whose data-collection period contains zero arrivals
still completes (the run function is total) and reports every scalar KPI as
the explicit "no data" marker, never as a NaN. -/
theorem zero_arrivals_report_no_data :
    ∀ (p : Param) (iats : List ℚ) (consult : ℕ → ℚ),
      (run_single_with p iats consult).results_list = [] →
      (run_single_with p iats consult).kpis = ⟨none, none, none⟩ := by
  intro p iats consult h
  show kpis_of (results_list_of p iats consult) (audit_list_of p iats consult)
      = _
  have h2 : results_list_of p iats consult = [] := h
  rw [h2]
  rfl

/-- Witness for C6: the idle configuration, whose only inter-arrival draw
of 100 overshoots the whole run, reports all KPIs as "no data". -/
theorem zero_arrivals_report_no_data_witness :
    (run_single_with wparam_idle wiats_idle wconsult).kpis
      = ⟨none, none, none⟩ :=
  zero_arrivals_report_no_data wparam_idle wiats_idle wconsult (by decide)

/-- C7: construction succeeds exactly on valid configurations — a missing
(NaN) or non-positive distribution mean, a non-positive duration, zero
servers, a zero core count or more cores than available all yield a
`ConfigurationError` at construction, before any simulated time advances —
and a configuration that is accepted is passed through field by field,
never silently clamped. -/
theorem configuration_validation :
    ∀ (raw : RawParam) (available_cores : ℕ),
      exceptOk (mkParam raw available_cores)
        = validConfig raw available_cores ∧
      (∀ q, mkParam raw available_cores = .ok q →
        raw.patient_inter = some q.patient_inter ∧
        raw.mean_n_consult_time = some q.mean_n_consult_time ∧
        q.number_of_nurses = raw.number_of_nurses ∧
        q.warm_up_period = raw.warm_up_period ∧
        q.data_collection_period = raw.data_collection_period ∧
        q.audit_interval = raw.audit_interval ∧
        q.number_of_runs = raw.number_of_runs ∧
        q.cores = raw.cores) := by
  intro raw avail
  constructor
  · unfold mkParam validConfig
    cases hpi : raw.patient_inter with
    | none => simp [exceptOk]
    | some pi =>
        cases hmc : raw.mean_n_consult_time with
        | none => simp [exceptOk]
        | some mc =>
            dsimp only
            by_cases h1 : pi ≤ 0 ∨ mc ≤ 0
            · rw [if_pos h1]
              have hAB : (decide (0 < pi) && decide (0 < mc)) = false := by
                rcases h1 with h | h
                · have hx : decide (0 < pi) = false :=
                    decide_eq_false (not_lt.mpr h)
                  simp [hx]
                · have hx : decide (0 < mc) = false :=
                    decide_eq_false (not_lt.mpr h)
                  simp [hx]
              show false = _
              rw [hAB]
              simp
            · rw [if_neg h1]
              push_neg at h1
              obtain ⟨hp, hm⟩ := h1
              by_cases h2 : raw.warm_up_period ≤ 0 ∨
                  raw.data_collection_period ≤ 0 ∨ raw.audit_interval ≤ 0
              · rw [if_pos h2]
                simp only [exceptOk]
                rcases h2 with h | h | h <;>
                  simp [decide_eq_true_eq, hp, hm, not_lt.mpr h]
              · rw [if_neg h2]
                push_neg at h2
                obtain ⟨hw, hd, ha⟩ := h2
                by_cases h3 : raw.number_of_nurses = 0
                · rw [if_pos h3]
                  simp [exceptOk, decide_eq_true_eq, hp, hm, hw, hd, ha, h3]
                · rw [if_neg h3]
                  by_cases h4 : raw.cores = 0 ∨ avail < raw.cores
                  · rw [if_pos h4]
                    simp only [exceptOk]
                    rcases h4 with h | h <;>
                      simp [decide_eq_true_eq, hp, hm, hw, hd, ha,
                        Nat.pos_of_ne_zero h3, h]
                  · rw [if_neg h4]
                    push_neg at h4
                    obtain ⟨hc, hac⟩ := h4
                    simp [exceptOk, decide_eq_true_eq, hp, hm, hw, hd, ha,
                      Nat.pos_of_ne_zero h3, Nat.pos_of_ne_zero hc, hac]
  · intro q h
    unfold mkParam at h
    cases hpi : raw.patient_inter with
    | none => rw [hpi] at h; simp at h
    | some pi =>
        cases hmc : raw.mean_n_consult_time with
        | none => rw [hpi, hmc] at h; simp at h
        | some mc =>
            rw [hpi, hmc] at h
            dsimp only at h
            split_ifs at h
            simp only [Except.ok.injEq] at h
            subst h
            exact ⟨rfl, rfl, rfl, rfl, rfl, rfl, rfl, rfl⟩

/-- Witness for C7: the bad configuration requesting 9 of 8 cores is
rejected while the good one is accepted, and the accepted configuration's
fields equal the raw inputs verbatim. -/
theorem configuration_validation_witness :
    exceptOk (mkParam wraw_bad 8) = validConfig wraw_bad 8 ∧
    wraw_good.patient_inter = some wparam_good.patient_inter ∧
    wparam_good.cores = wraw_good.cores := by
  have h2 := (configuration_validation wraw_good 8).2 wparam_good (by rfl)
  exact ⟨(configuration_validation wraw_bad 8).1, h2.1, h2.2.2.2.2.2.2.2⟩

/-- C8: for every KPI sequence, the Replications Algorithm confirms a count
only when the precision criterion has held at it and at `look_ahead`
further replications within the budget, confirms the least such count (a
break of the criterion before the look-ahead window elapses restarts the
search beyond the break), reports "not converged" (`none`) when the budget
is exhausted without such a window, and a confirmed count is stable under
enlarging the budget. -/
theorem replications_algorithm_lookahead :
    ∀ (ys : ℕ → ℚ) (target : ℚ) (sqrtFn : ℚ → ℚ) (tcrit : ℕ → ℚ) (L M : ℕ),
      (∀ m, nStar (precisionCrit ys target sqrtFn tcrit) L M = some m →
          windowHolds (precisionCrit ys target sqrtFn tcrit) L m ∧
          m + L ≤ M ∧ 1 ≤ m ∧
          ∀ m2, 1 ≤ m2 → m2 < m →
            ¬ windowHolds (precisionCrit ys target sqrtFn tcrit) L m2) ∧
      (nStar (precisionCrit ys target sqrtFn tcrit) L M = none →
          ∀ m, 1 ≤ m → m + L ≤ M →
            ¬ windowHolds (precisionCrit ys target sqrtFn tcrit) L m) ∧
      (∀ m M2, M ≤ M2 →
          nStar (precisionCrit ys target sqrtFn tcrit) L M = some m →
          nStar (precisionCrit ys target sqrtFn tcrit) L M2 = some m) := by
  intro ys target sqrtFn tcrit L M
  refine ⟨?_, ?_, ?_⟩
  · intro m h
    have hres := solveLoop_some_spec (precisionCrit ys target sqrtFn tcrit)
      L M 1 0 m h (by intro j hj1 hj2; exact absurd hj1 (by omega))
      (Nat.zero_le L) (by omega)
    obtain ⟨hw, hbud, hge, hleast⟩ := hres
    exact ⟨hw, by omega, by omega, fun m2 a b => hleast m2 (by omega) b⟩
  · intro h m h1 h2
    exact solveLoop_none_spec (precisionCrit ys target sqrtFn tcrit) L M 1 0 h
      (by intro j hj1 hj2; exact absurd hj1 (by omega)) (Nat.zero_le L)
      (by omega) m (by omega) (by omega)
  · intro m M2 hM h
    have heq : M2 = M + (M2 - M) := by omega
    rw [heq]
    exact solveLoop_mono (precisionCrit ys target sqrtFn tcrit) L M 1 0 m h
      (M2 - M)

/-- Witness for C8: over the constant KPI sequence 10, with look-ahead 2
and budget 10, the algorithm confirms count 3, whose criterion indeed holds
and whose window fits the budget. -/
theorem replications_algorithm_lookahead_witness :
    precisionCrit wys (1/10) id wtcrit 3 = true ∧ 3 + 2 ≤ 10 := by
  have h := (replications_algorithm_lookahead wys (1/10) id wtcrit 2 10).1 3
    (by decide)
  exact ⟨h.1 3 le_rfl (by omega), h.2.1⟩

/-- C9 counterexample: in the replication recorded in
`notebooks/logs.ipynb` the arrival log is chronological, yet the patient
identifiers are not strictly increasing along it — warm-up patient 5
arrives at 23.023 before data-collection patient 1 arrives at 30.223 — so a
single monotonic identifier sequence does not span the whole replication. -/
theorem logged_patient_ids_not_monotonic :
    List.Pairwise (fun a b => a.2.2 ≤ b.2.2) logs_arrival_events ∧
    ¬ List.Pairwise (fun (a b : Phase × ℕ × ℚ) => a.2.1 < b.2.1)
      logs_arrival_events := by
  constructor <;> decide

/-- C9 (amended): patient identifiers are monotonic within each phase of a
replication, not across the whole of it: the warm-up patients are numbered
`1, 2, ...` in creation order and the data-collection patients are
separately numbered `1, 2, ...` in creation order (so the retained results
list carries identifiers `1, ..., n`), with the sequence restarting at the
data-collection boundary. -/
theorem patient_ids_monotonic_per_phase :
    ∀ (p : Param) (iats : List ℚ) (consult : ℕ → ℚ),
      (((run_single_with p iats consult).patients.filter
          (fun q => q.phase = Phase.wu)).map Patient.patient_id
        = List.range' 1 (((run_single_with p iats consult).patients.filter
            (fun q => q.phase = Phase.wu)).length)) ∧
      (((run_single_with p iats consult).patients.filter
          (fun q => q.phase = Phase.dc)).map Patient.patient_id
        = List.range' 1 (((run_single_with p iats consult).patients.filter
            (fun q => q.phase = Phase.dc)).length)) ∧
      ((run_single_with p iats consult).results_list.map ResultRec.patient_id
        = List.range' 1 (run_single_with p iats consult).results_list.length) := by
  intro p iats consult
  have hwu := assignIds_filter_wu p.warm_up_period
    ((sim_state p iats consult).recs.reverse) 1 1
  have hdc := assignIds_filter_dc p.warm_up_period
    ((sim_state p iats consult).recs.reverse) 1 1
  have hlwu : ((assignIds p.warm_up_period 1 1
      ((sim_state p iats consult).recs.reverse)).filter
        (fun q => q.phase = Phase.wu)).length
      = ((sim_state p iats consult).recs.reverse).countP
          (fun r => decide (r.arrival_time < p.warm_up_period)) := by
    have h2 := congrArg List.length hwu
    simpa [List.length_map, List.length_range'] using h2
  have hldc : ((assignIds p.warm_up_period 1 1
      ((sim_state p iats consult).recs.reverse)).filter
        (fun q => q.phase = Phase.dc)).length
      = ((sim_state p iats consult).recs.reverse).countP
          (fun r => decide (¬ r.arrival_time < p.warm_up_period)) := by
    have h2 := congrArg List.length hdc
    simpa [List.length_map, List.length_range'] using h2
  have hpat : (run_single_with p iats consult).patients
      = assignIds p.warm_up_period 1 1
          ((sim_state p iats consult).recs.reverse) := rfl
  have hres : (run_single_with p iats consult).results_list
      = ((assignIds p.warm_up_period 1 1
          ((sim_state p iats consult).recs.reverse)).filter
            (fun q => q.phase = Phase.dc)).map Patient.toResult := rfl
  have hcomp : ResultRec.patient_id ∘ Patient.toResult = Patient.patient_id :=
    rfl
  refine ⟨?_, ?_, ?_⟩
  · rw [hpat, hwu, hlwu]
  · rw [hpat, hdc, hldc]
  · rw [hres, List.map_map, List.length_map, hcomp, hdc, hldc]

/-- C10 counterexample: in the recorded replication the first result row is
a patient who arrived after the warm-up boundary (30.223 ≥ 30) and had not
completed service when the run ended at 80 (arrival + wait + consultation
exceeds 81), yet its queue-wait and consultation fields hold real values,
not NaN — the NaN fields mark patients whose service never started, not
those whose service never finished. -/
theorem logged_unfinished_patient_has_filled_fields :
    (logs_results_list.headD wresult_default) ∈ logs_results_list ∧
    logs_param.warm_up_period ≤
      (logs_results_list.headD wresult_default).arrival_time ∧
    (logs_results_list.headD wresult_default).q_time_nurse
      = some 31.622866260876396 ∧
    (logs_results_list.headD wresult_default).time_with_nurse
      = some 19.610316954226214 ∧
    logs_run_length <
      (logs_results_list.headD wresult_default).arrival_time
        + 31.622866260876396 + 19.610316954226214 := by
  refine ⟨by decide, by decide, by decide, by decide, by decide⟩

/-- C10 (amended): every patient who arrived during data collection keeps a
row in the results list with the arrival time filled in; the queue-wait and
consultation fields are `some` (real values) exactly when service started
before the end of the run — they are `none` (NaN) exactly for patients
whose service never started, and service never starts at or after the end
of the run. -/
theorem results_fields_filled_iff_started :
    ∀ (p : Param) (iats : List ℚ) (consult : ℕ → ℚ),
      ((run_single_with p iats consult).results_list
        = ((run_single_with p iats consult).patients.filter
            (fun q => q.phase = Phase.dc)).map Patient.toResult) ∧
      ∀ q ∈ (run_single_with p iats consult).patients,
        q.q_time_nurse.isSome = q.start_time.isSome ∧
        q.time_with_nurse.isSome = q.start_time.isSome ∧
        ∀ s, q.start_time = some s → s < run_length p := by
  intro p iats consult
  refine ⟨rfl, ?_⟩
  intro q hq
  obtain ⟨r, hr, ha, hs, hqt, htw⟩ :=
    assignIds_fields p.warm_up_period
      ((sim_state p iats consult).recs.reverse) 1 1 q hq
  obtain ⟨h1, h2, h3⟩ :=
    sim_state_recOk p iats consult r (List.mem_reverse.mp hr)
  refine ⟨?_, ?_, ?_⟩
  · rw [hqt, hs]; exact h1
  · rw [htw, hs]; exact h2
  · intro s hss
    rw [hs] at hss
    exact h3 s hss

/-- Witness for C10 at the concrete configuration `wparam` with unit draw
streams: the first patient's fields obey the filled-iff-started rule. -/
theorem results_fields_filled_iff_started_witness :
    ((run_single_with wparam wiats wconsult).patients.headD
        wpatient_default).q_time_nurse.isSome
      = ((run_single_with wparam wiats wconsult).patients.headD
          wpatient_default).start_time.isSome ∧
    ((run_single_with wparam wiats wconsult).patients.headD
        wpatient_default).time_with_nurse.isSome
      = ((run_single_with wparam wiats wconsult).patients.headD
          wpatient_default).start_time.isSome := by
  have h := (results_fields_filled_iff_started wparam wiats wconsult).2
    ((run_single_with wparam wiats wconsult).patients.headD wpatient_default)
    (by decide)
  exact ⟨h.1, h.2.1⟩

end ClaimTheorems

end DesRap
